import Mathlib

set_option maxRecDepth 20000

/-
Verification of the Google-Keep-to-Joplin converter
(src/convert_keep_to_markdown.py) against its specification.

Python strings are embedded as `List Char`.  The script's three functions
`sanitize_filename`, `convert_keep_html_to_md` and `main` are embedded as
pure Lean functions below; parsed HTML documents are embedded as a mutual
inductive tree type mirroring the BeautifulSoup node structure that the
script traverses.
-/

namespace Keep2Md

/-! ### Python string primitives used by the script -/

/-- Characters removed by `re.sub(r'[\\/*?:"<>|]', "", filename)`
(src line 12). -/
def badChar (c : Char) : Bool :=
  c == '\\' || c == '/' || c == '*' || c == '?' || c == ':' ||
  c == '"' || c == '<' || c == '>' || c == '|'

/-- The whitespace predicate of Python's `str.strip()` / `str.isspace()`:
ASCII and Latin-1 whitespace plus the Unicode space separators. -/
def pyIsSpace (c : Char) : Bool :=
  c == ' ' || c == '\t' || c == '\n' || c == '\r' || c == '\x0b' ||
  c == '\x0c' || c == '\x1c' || c == '\x1d' || c == '\x1e' || c == '\x1f' ||
  c == '\x85' || c == '\xa0' || c == '\u1680' ||
  ('\u2000' ≤ c && c ≤ '\u200A') || c == '\u2028' || c == '\u2029' ||
  c == '\u202F' || c == '\u205F' || c == '\u3000'

/-- Remove the longest prefix of characters satisfying `p`
(the left half of Python's `str.strip`). -/
def lstrip (p : Char → Bool) (s : List Char) : List Char :=
  s.dropWhile p

/-- Remove the longest suffix of characters satisfying `p`
(the right half of Python's `str.strip`). -/
def rstrip (p : Char → Bool) (s : List Char) : List Char :=
  (s.reverse.dropWhile p).reverse

/-- Python's `str.strip(chars)`: remove matching characters from both ends. -/
def pyStrip (p : Char → Bool) (s : List Char) : List Char :=
  rstrip p (lstrip p s)

/-- `true` iff `s` is non-empty and its first character satisfies `p`. -/
def hasLeading (p : Char → Bool) (s : List Char) : Bool :=
  match s with
  | [] => false
  | c :: _ => p c

/-- `true` iff `s` is non-empty and its last character satisfies `p`. -/
def hasTrailing (p : Char → Bool) (s : List Char) : Bool :=
  hasLeading p s.reverse

/-- The fallback filename literal `"Untitled Note"` (src line 21). -/
def untitledNote : List Char := "Untitled Note".toList

/-! ### `sanitize_filename` (src lines 9–26) -/

/-- The value of the local `sanitized` after src line 18:
1. `re.sub(r'[\\/*?:"<>|]', "", filename)` — drop the invalid characters;
2. `.replace(":", "_")` — replace colons (dead: step 1 already removed them);
3. `.replace("+", "_")` — replace plus signs;
4. `.strip().strip('.')` — trim whitespace, then trim dots. -/
def sanitizedCore (filename : List Char) : List Char :=
  pyStrip (fun c => c == '.')
    (pyStrip pyIsSpace
      (((filename.filter fun c => !badChar c).map
          fun c => if c == ':' then '_' else c).map
        fun c => if c == '+' then '_' else c))

/-- The value of `sanitized` after the emptiness fallback of src lines 20–21:
an empty or all-dot result becomes `"Untitled Note"`. -/
def sanitizeClamped (filename : List Char) : List Char :=
  if (sanitizedCore filename).isEmpty ||
     (sanitizedCore filename).all (fun c => c == '.')
  then untitledNote else sanitizedCore filename

/-- Embedding of `sanitize_filename` (src lines 9–26): the clamped result,
truncated to 200 characters when longer (src lines 23–25). -/
def sanitize_filename (filename : List Char) : List Char :=
  if 200 < (sanitizeClamped filename).length
  then (sanitizeClamped filename).take 200
  else sanitizeClamped filename

/-! ### List helper lemmas -/

theorem mem_dropWhile {p : Char → Bool} {l : List Char} {a : Char}
    (h : a ∈ l.dropWhile p) : a ∈ l := by
  induction l with
  | nil => simp at h
  | cons c t ih =>
    rw [List.dropWhile_cons] at h
    by_cases hc : p c = true
    · simp only [hc, if_true] at h
      exact List.mem_cons_of_mem _ (ih h)
    · simp only [hc, if_false] at h
      exact h

theorem hasLeading_dropWhile (p : Char → Bool) (l : List Char) :
    hasLeading p (l.dropWhile p) = false := by
  induction l with
  | nil => rfl
  | cons c t ih =>
    rw [List.dropWhile_cons]
    by_cases hc : p c = true
    · simpa [hc] using ih
    · simp only [hc, if_false, hasLeading]
      exact Bool.eq_false_iff.mpr hc

theorem dropWhile_eq_self_of_not_leading {p : Char → Bool} {l : List Char}
    (h : hasLeading p l = false) : l.dropWhile p = l := by
  cases l with
  | nil => rfl
  | cons c t =>
    rw [List.dropWhile_cons]
    simp only [hasLeading] at h
    simp [h]

theorem exists_append_dropWhile (p : Char → Bool) (l : List Char) :
    ∃ u, u ++ l.dropWhile p = l := by
  induction l with
  | nil => exact ⟨[], rfl⟩
  | cons c t ih =>
    rw [List.dropWhile_cons]
    by_cases hc : p c = true
    · obtain ⟨u, hu⟩ := ih
      exact ⟨c :: u, by simpa [hc] using congrArg (c :: ·) hu⟩
    · exact ⟨[], by simp [hc]⟩

/-- `rstrip p s` is a prefix of `s`. -/
theorem exists_rstrip_append (p : Char → Bool) (s : List Char) :
    ∃ v, s = rstrip p s ++ v := by
  obtain ⟨u, hu⟩ := exists_append_dropWhile p s.reverse
  refine ⟨u.reverse, ?_⟩
  have := congrArg List.reverse hu
  simpa [rstrip, List.reverse_append] using this.symm

theorem mem_lstrip {p : Char → Bool} {s : List Char} {a : Char}
    (h : a ∈ lstrip p s) : a ∈ s := mem_dropWhile h

theorem mem_rstrip {p : Char → Bool} {s : List Char} {a : Char}
    (h : a ∈ rstrip p s) : a ∈ s := by
  obtain ⟨v, hv⟩ := exists_rstrip_append p s
  rw [hv]
  exact List.mem_append_left _ h

theorem mem_pyStrip {p : Char → Bool} {s : List Char} {a : Char}
    (h : a ∈ pyStrip p s) : a ∈ s :=
  mem_lstrip (mem_rstrip h)

theorem length_lstrip (p : Char → Bool) (s : List Char) :
    (lstrip p s).length ≤ s.length := by
  obtain ⟨u, hu⟩ := exists_append_dropWhile p s
  calc (lstrip p s).length ≤ u.length + (lstrip p s).length := Nat.le_add_left _ _
  _ = s.length := by rw [← List.length_append]; exact congrArg List.length hu

theorem length_rstrip (p : Char → Bool) (s : List Char) :
    (rstrip p s).length ≤ s.length := by
  obtain ⟨v, hv⟩ := exists_rstrip_append p s
  calc (rstrip p s).length ≤ (rstrip p s).length + v.length := Nat.le_add_right _ _
  _ = s.length := by rw [← List.length_append, ← hv]

theorem length_pyStrip (p : Char → Bool) (s : List Char) :
    (pyStrip p s).length ≤ s.length :=
  le_trans (length_rstrip _ _) (length_lstrip _ _)

theorem hasLeading_lstrip (p : Char → Bool) (s : List Char) :
    hasLeading p (lstrip p s) = false := hasLeading_dropWhile p s

theorem hasTrailing_rstrip (p : Char → Bool) (s : List Char) :
    hasTrailing p (rstrip p s) = false := by
  unfold hasTrailing rstrip
  rw [List.reverse_reverse]
  exact hasLeading_dropWhile p s.reverse

/-- A leading character of `rstrip p s` is a leading character of `s`. -/
theorem hasLeading_of_hasLeading_rstrip {q p : Char → Bool} {s : List Char}
    (h : hasLeading q (rstrip p s) = true) : hasLeading q s = true := by
  obtain ⟨v, hv⟩ := exists_rstrip_append p s
  cases hr : rstrip p s with
  | nil => rw [hr] at h; exact absurd h (by simp [hasLeading])
  | cons c t =>
    rw [hr] at h hv
    rw [hv]
    simpa [hasLeading] using h

theorem hasLeading_pyStrip (p : Char → Bool) (s : List Char) :
    hasLeading p (pyStrip p s) = false := by
  unfold pyStrip
  by_cases h : hasLeading p (rstrip p (lstrip p s)) = true
  · exact absurd (hasLeading_of_hasLeading_rstrip h)
      (by rw [hasLeading_lstrip]; exact Bool.false_ne_true)
  · exact Bool.eq_false_iff.mpr h

theorem hasTrailing_pyStrip (p : Char → Bool) (s : List Char) :
    hasTrailing p (pyStrip p s) = false := hasTrailing_rstrip p _

theorem lstrip_eq_self {p : Char → Bool} {s : List Char}
    (h : hasLeading p s = false) : lstrip p s = s :=
  dropWhile_eq_self_of_not_leading h

theorem rstrip_eq_self {p : Char → Bool} {s : List Char}
    (h : hasTrailing p s = false) : rstrip p s = s := by
  unfold rstrip
  rw [dropWhile_eq_self_of_not_leading h, List.reverse_reverse]

theorem pyStrip_eq_self {p : Char → Bool} {s : List Char}
    (h1 : hasLeading p s = false) (h2 : hasTrailing p s = false) :
    pyStrip p s = s := by
  unfold pyStrip
  rw [lstrip_eq_self h1, rstrip_eq_self h2]

theorem map_id_of {f : Char → Char} {l : List Char}
    (h : ∀ a ∈ l, f a = a) : l.map f = l := by
  induction l with
  | nil => rfl
  | cons c t ih =>
    simp only [List.map_cons, h c (List.mem_cons_self c t)]
    rw [ih fun a ha => h a (List.mem_cons_of_mem _ ha)]

theorem mem_take {n : Nat} {l : List Char} {a : Char}
    (h : a ∈ l.take n) : a ∈ l := List.take_subset n l h

theorem hasLeading_take {q : Char → Bool} {n : Nat} {l : List Char}
    (hn : n ≠ 0) : hasLeading q (l.take n) = hasLeading q l := by
  cases l with
  | nil => simp [hasLeading]
  | cons c t =>
    cases n with
    | zero => exact absurd rfl hn
    | succ m => simp [List.take_succ_cons, hasLeading]

theorem take_ne_nil {n : Nat} {l : List Char} (hn : n ≠ 0) (hl : l ≠ []) :
    l.take n ≠ [] := by
  cases l with
  | nil => exact absurd rfl hl
  | cons c t =>
    cases n with
    | zero => exact absurd rfl hn
    | succ m => simp [List.take_succ_cons]

end Keep2Md

namespace Keep2Md

/-! ### Invariants of `sanitize_filename` -/

theorem mem_sanitizedCore {s : List Char} {c : Char}
    (h : c ∈ sanitizedCore s) : badChar c = false ∧ c ≠ '+' := by
  unfold sanitizedCore at h
  have h3 := mem_pyStrip (mem_pyStrip h)
  rw [List.mem_map] at h3
  obtain ⟨b, hb, hbc⟩ := h3
  rw [List.mem_map] at hb
  obtain ⟨a, ha, hab⟩ := hb
  rw [List.mem_filter] at ha
  subst hbc
  by_cases hbp : (b == '+') = true
  · simp only [hbp, if_true]
    exact ⟨by decide, by decide⟩
  · rw [Bool.not_eq_true] at hbp
    simp only [hbp, Bool.false_eq_true, if_false]
    subst hab
    by_cases hac : (a == ':') = true
    · simp only [hac, if_true] at hbp ⊢
      exact ⟨by decide, by decide⟩
    · rw [Bool.not_eq_true] at hac
      simp only [hac, Bool.false_eq_true, if_false] at hbp ⊢
      refine ⟨?_, beq_eq_false_iff_ne.mp hbp⟩
      have := ha.2
      rw [Bool.not_eq_eq_eq_not] at this
      exact this

theorem hasLeading_sanitizedCore_dot (s : List Char) :
    hasLeading (fun c => c == '.') (sanitizedCore s) = false := by
  unfold sanitizedCore
  exact hasLeading_pyStrip _ _

theorem sanitizeClamped_ne_nil (s : List Char) : sanitizeClamped s ≠ [] := by
  unfold sanitizeClamped
  split
  · decide
  · next hcond =>
    simp only [Bool.or_eq_true, not_or] at hcond
    intro hnil
    rw [hnil] at hcond
    exact hcond.1 rfl

theorem hasLeading_sanitizeClamped_dot (s : List Char) :
    hasLeading (fun c => c == '.') (sanitizeClamped s) = false := by
  unfold sanitizeClamped
  split
  · decide
  · exact hasLeading_sanitizedCore_dot s

theorem mem_sanitizeClamped {s : List Char} {c : Char}
    (h : c ∈ sanitizeClamped s) : badChar c = false ∧ c ≠ '+' := by
  unfold sanitizeClamped at h
  split at h
  · exact (by decide : ∀ d ∈ untitledNote, badChar d = false ∧ d ≠ '+') c h
  · exact mem_sanitizedCore h

theorem sanitize_mem {s : List Char} {c : Char}
    (h : c ∈ sanitize_filename s) : badChar c = false ∧ c ≠ '+' := by
  unfold sanitize_filename at h
  split at h
  · exact mem_sanitizeClamped (mem_take h)
  · exact mem_sanitizeClamped h

theorem sanitize_ne_nil (s : List Char) : sanitize_filename s ≠ [] := by
  unfold sanitize_filename
  split
  · exact take_ne_nil (by decide) (sanitizeClamped_ne_nil s)
  · exact sanitizeClamped_ne_nil s

theorem sanitize_length_le (s : List Char) :
    (sanitize_filename s).length ≤ 200 := by
  unfold sanitize_filename
  split
  · rw [List.length_take]
    exact min_le_left _ _
  · next h => exact Nat.not_lt.mp h

theorem sanitize_head_not_dot (s : List Char) :
    hasLeading (fun c => c == '.') (sanitize_filename s) = false := by
  unfold sanitize_filename
  split
  · rw [hasLeading_take (by decide)]
    exact hasLeading_sanitizeClamped_dot s
  · exact hasLeading_sanitizeClamped_dot s

/-- Key identity lemma: `sanitize_filename` is the identity on any string that
already satisfies the sanitized-form conditions. -/
theorem sanitize_fixed {x : List Char} (h1 : x ≠ []) (h2 : x.length ≤ 200)
    (h3 : ∀ c ∈ x, badChar c = false) (h4 : '+' ∉ x)
    (h5 : hasLeading pyIsSpace x = false) (h6 : hasTrailing pyIsSpace x = false)
    (h7 : hasLeading (fun c => c == '.') x = false)
    (h8 : hasTrailing (fun c => c == '.') x = false) :
    sanitize_filename x = x := by
  have hfilter : x.filter (fun c => !badChar c) = x :=
    List.filter_eq_self.mpr fun a ha => by rw [h3 a ha]; rfl
  have hcolon : (x.map fun c => if c == ':' then '_' else c) = x :=
    map_id_of fun a ha => by
      have hne : (a == ':') = false := by
        by_cases h : a = ':'
        · subst h; exact absurd (h3 ':' ha) (by decide)
        · exact beq_eq_false_iff_ne.mpr h
      simp [hne]
  have hplus : (x.map fun c => if c == '+' then '_' else c) = x :=
    map_id_of fun a ha => by
      have hne : (a == '+') = false :=
        beq_eq_false_iff_ne.mpr fun h => h4 (h ▸ ha)
      simp [hne]
  have hcore : sanitizedCore x = x := by
    unfold sanitizedCore
    rw [hfilter, hcolon, hplus, pyStrip_eq_self h5 h6, pyStrip_eq_self h7 h8]
  have hclamped : sanitizeClamped x = x := by
    unfold sanitizeClamped
    rw [hcore]
    have he : x.isEmpty = false := by
      cases x with
      | nil => exact absurd rfl h1
      | cons c t => rfl
    have hall : x.all (fun c => c == '.') = false := by
      cases x with
      | nil => exact absurd rfl h1
      | cons c t =>
        simp only [hasLeading] at h7
        simp [List.all_cons, h7]
    rw [he, hall]
    rfl
  unfold sanitize_filename
  rw [hclamped, if_neg (Nat.not_lt.mpr h2)]

end Keep2Md

namespace Keep2Md

/-! ### Claim theorems about `sanitize_filename` -/

/-- **C1** (amended): for every input string, the output of
`sanitize_filename` never contains any of the characters
`\ / * ? : " < > |`, is non-empty, has length at most 200, and has no
leading `.` character; `sanitize_filename` is a pure total function.
(The original claim also demanded no leading/trailing whitespace and no
trailing dot; those fail, see `sanitize_edge_cex`.) -/
theorem sanitize_output_invariants (s : List Char) :
    ((sanitize_filename s).all fun c => !badChar c) = true ∧
    sanitize_filename s ≠ [] ∧
    (sanitize_filename s).length ≤ 200 ∧
    hasLeading (fun c => c == '.') (sanitize_filename s) = false := by
  refine ⟨?_, sanitize_ne_nil s, sanitize_length_le s, sanitize_head_not_dot s⟩
  rw [List.all_eq_true]
  intro c hc
  rw [(sanitize_mem hc).1]
  rfl

/-- **C1** counterexample: `sanitize(". a .") = " a "` keeps leading and
trailing whitespace (exposed by the dot-stripping pass that runs after the
whitespace-stripping pass), and on a 202-character input the final
truncation reintroduces a trailing `.`; so the claimed output invariants
"no leading or trailing whitespace and no leading or trailing dot" are
false as stated. -/
theorem sanitize_edge_cex :
    sanitize_filename (". a .".toList) = " a ".toList ∧
    hasLeading pyIsSpace (sanitize_filename (". a .".toList)) = true ∧
    hasTrailing pyIsSpace (sanitize_filename (". a .".toList)) = true ∧
    hasTrailing (fun c => c == '.')
      (sanitize_filename (List.replicate 199 'a' ++ ". b".toList)) = true := by
  refine ⟨by decide, by decide, by decide, by decide⟩

/-- **C2** (amended): `sanitize_filename` is idempotent at every input `x`
whose output has no leading or trailing whitespace and no trailing dot;
(no-bad-character, non-emptiness, length and leading-dot conditions hold
automatically by the output invariants). -/
theorem sanitize_idempotent_on_clean_output (x : List Char)
    (hlw : hasLeading pyIsSpace (sanitize_filename x) = false)
    (htw : hasTrailing pyIsSpace (sanitize_filename x) = false)
    (htd : hasTrailing (fun c => c == '.') (sanitize_filename x) = false) :
    sanitize_filename (sanitize_filename x) = sanitize_filename x :=
  sanitize_fixed (sanitize_ne_nil x) (sanitize_length_le x)
    (fun _ hc => (sanitize_mem hc).1)
    (fun hmem => (sanitize_mem hmem).2 rfl)
    hlw htw (sanitize_head_not_dot x) htd

/-- Witness for `sanitize_idempotent_on_clean_output` at the concrete
input `"a"`. -/
theorem sanitize_idempotent_witness :
    sanitize_filename (sanitize_filename ("a".toList)) =
      sanitize_filename ("a".toList) :=
  sanitize_idempotent_on_clean_output ("a".toList)
    (by decide) (by decide) (by decide)

/-- **C2** counterexample: `sanitize` is not idempotent.
`sanitize(". a") = " a"` (dot-stripping exposes a space) but
`sanitize(" a") = "a"`; likewise on a 202-character input the truncated
output ends in `.` which a second application strips. -/
theorem sanitize_not_idempotent_cex :
    sanitize_filename (sanitize_filename (". a".toList)) ≠
      sanitize_filename (". a".toList) ∧
    sanitize_filename
        (sanitize_filename (List.replicate 199 'a' ++ ". b".toList)) ≠
      sanitize_filename (List.replicate 199 'a' ++ ". b".toList) := by
  refine ⟨by decide, by decide⟩

/-- **C3** (amended): `sanitize("") = "Untitled Note"`,
`sanitize("...") = "Untitled Note"`, and
`sanitize("My Note: Plan+B") = "My Note Plan_B"` — the colon is removed by
the invalid-character pass of src line 12 before the (dead) colon
replacement of src line 14 could turn it into an underscore. -/
theorem sanitize_examples :
    sanitize_filename ("".toList) = "Untitled Note".toList ∧
    sanitize_filename ("...".toList) = "Untitled Note".toList ∧
    sanitize_filename ("My Note: Plan+B".toList) = "My Note Plan_B".toList := by
  refine ⟨by decide, by decide, by decide⟩

/-- **C3** counterexample: the spec example
`sanitize("My Note: Plan+B") == "My Note_ Plan_B"` is false — the code
yields `"My Note Plan_B"` (no underscore for the colon). -/
theorem sanitize_colon_example_cex :
    sanitize_filename ("My Note: Plan+B".toList) = "My Note Plan_B".toList ∧
    sanitize_filename ("My Note: Plan+B".toList) ≠ "My Note_ Plan_B".toList := by
  refine ⟨by decide, by decide⟩

/-- **C10**: `sanitize_filename` is the identity on every string already in
sanitized form: non-empty, length at most 200, containing none of
`\ / * ? : " < > |` and no `+`, with no leading or trailing whitespace and
no leading or trailing `.`. -/
theorem sanitize_id_on_sanitized (x : List Char)
    (h1 : x ≠ []) (h2 : x.length ≤ 200)
    (h3 : ∀ c ∈ x, badChar c = false) (h4 : '+' ∉ x)
    (h5 : hasLeading pyIsSpace x = false)
    (h6 : hasTrailing pyIsSpace x = false)
    (h7 : hasLeading (fun c => c == '.') x = false)
    (h8 : hasTrailing (fun c => c == '.') x = false) :
    sanitize_filename x = x :=
  sanitize_fixed h1 h2 h3 h4 h5 h6 h7 h8

/-- Witness for `sanitize_id_on_sanitized` at the concrete input
`"My Note Plan_B"`. -/
theorem sanitize_id_witness :
    sanitize_filename ("My Note Plan_B".toList) = "My Note Plan_B".toList :=
  sanitize_id_on_sanitized ("My Note Plan_B".toList)
    (by decide) (by decide) (by decide) (by decide)
    (by decide) (by decide) (by decide) (by decide)

end Keep2Md

namespace Keep2Md

/-! ### Parsed HTML documents (the BeautifulSoup tree the script traverses) -/

mutual
/-- A parsed HTML node as BeautifulSoup exposes it to the script: a text
node (`NavigableString`) or an element with tag name, attributes and
children. -/
inductive Node where
  | text (s : List Char)
  | tag (name : String) (attrs : List (String × String)) (children : NodeList)
/-- A list of sibling nodes. -/
inductive NodeList where
  | nil
  | cons (head : Node) (tail : NodeList)
end

/-- Build a `NodeList` from a `List Node` (literal convenience). -/
def NodeList.ofList : List Node → NodeList
  | [] => .nil
  | n :: rest => .cons n (NodeList.ofList rest)

/-- Split a character list on Python whitespace into non-empty tokens,
as html.parser splits a `class` attribute into a class list. -/
def splitWsAux : List Char → List Char → List (List Char)
  | [], acc => if acc.isEmpty then [] else [acc.reverse]
  | c :: rest, acc =>
    if pyIsSpace c then
      if acc.isEmpty then splitWsAux rest []
      else acc.reverse :: splitWsAux rest []
    else splitWsAux rest (c :: acc)

/-- The class tokens of an attribute list. -/
def classTokens (attrs : List (String × String)) : List (List Char) :=
  match attrs.lookup "class" with
  | none => []
  | some v => splitWsAux v.toList []

/-- BeautifulSoup's `find('div', class_=cls)` element predicate: a `div`
whose class list contains the token `cls`. -/
def isDivWithClass (cls : List Char) : Node → Bool
  | .tag n attrs _ => n == "div" && (classTokens attrs).contains cls
  | .text _ => false

mutual
/-- `element.find(pred)`: first matching descendant in document order
(the element itself is not considered). -/
def findInNode (p : Node → Bool) : Node → Option Node
  | .text _ => none
  | .tag _ _ kids => findInList p kids
/-- Depth-first search through a sibling list: each sibling is tested
before its own descendants. -/
def findInList (p : Node → Bool) : NodeList → Option Node
  | .nil => none
  | .cons c rest =>
    if p c then some c
    else
      match findInNode p c with
      | some r => some r
      | none => findInList p rest
end

mutual
/-- All text-node contents of a subtree, in document order. -/
def stringsOf : Node → List (List Char)
  | .text s => [s]
  | .tag _ _ kids => stringsList kids
/-- Text-node contents of a sibling list. -/
def stringsList : NodeList → List (List Char)
  | .nil => []
  | .cons c rest => stringsOf c ++ stringsList rest
end

/-- `get_text(strip=True)`: strip each contained string, drop the ones that
become empty, concatenate the rest with no separator. -/
def getTextStrip (n : Node) : List Char :=
  (((stringsOf n).map (pyStrip pyIsSpace)).filter fun t => !t.isEmpty).flatten

/-- An `<input type="checkbox">` control, as matched by
`li.find('input', type='checkbox')` (src line 67). -/
def isCheckboxInput : Node → Bool
  | .tag n attrs _ => n == "input" && attrs.lookup "type" == some "checkbox"
  | .text _ => false

/-- `checkbox.has_attr('checked')` (src line 74). -/
def isChecked : Node → Bool
  | .tag _ attrs _ => (attrs.lookup "checked").isSome
  | .text _ => false

mutual
/-- First checkbox control in a subtree (pre-order), with the list of its
following siblings — the data `li.find('input', type='checkbox')` and a
subsequent `find_next_sibling` call operate on. -/
def findCheckbox : Node → Option (Node × NodeList)
  | .text _ => none
  | .tag _ _ kids => findCheckboxInList kids
/-- Search of a sibling list for the first checkbox control. -/
def findCheckboxInList : NodeList → Option (Node × NodeList)
  | .nil => none
  | .cons c rest =>
    if isCheckboxInput c then some (c, rest)
    else
      match findCheckbox c with
      | some r => some r
      | none => findCheckboxInList rest
end

/-- `checkbox.find_next_sibling('span')` (src line 69): the first following
sibling that is a `span` element; text siblings and non-`span` elements are
skipped. -/
def nextSpanSibling : NodeList → Option Node
  | .nil => none
  | .cons c rest =>
    match c with
    | .tag "span" _ _ => some c
    | _ => nextSpanSibling rest

/-- The label the code computes for a checklist item with children `kids`:
the trimmed text of the first `span` sibling following the first checkbox
control, or empty if there is none (src lines 69–70). -/
def checkboxLabel (kids : NodeList) : List Char :=
  match findCheckboxInList kids with
  | none => []
  | some (_, sibs) =>
    match nextSpanSibling sibs with
    | some sp => getTextStrip sp
    | none => []

/-- The task-list marker the code writes for a checklist item with children
`kids`: `"- [x] "` when the first checkbox has a `checked` attribute,
`"- [ ] "` otherwise (src lines 74–77). -/
def checkboxMark (kids : NodeList) : List Char :=
  match findCheckboxInList kids with
  | none => []
  | some (cb, _) => if isChecked cb then "- [x] ".toList else "- [ ] ".toList

mutual
/-- The checkbox-normalization loop of src lines 66–78.  The loop collects
`content_tag.find_all('li')` once and mutates the tree in place: every list
item containing a checkbox control anywhere in its subtree is replaced
(`li.replace_with`) with a new `<p>` node carrying the literal task-list
text.  Replacing an outer `li` detaches its whole subtree, so a nested `li`
inside an already-replaced item is subsequently mutated only inside the
detached fragment and never reappears in `content_tag`; the loop's net
effect on the tree is this outermost-first recursive replacement. -/
def normalizeNode : Node → Node
  | .text s => .text s
  | .tag n a kids => .tag n a (normalizeList kids)
/-- Normalization of a sibling list; see `normalizeNode`. -/
def normalizeList : NodeList → NodeList
  | .nil => .nil
  | .cons c rest =>
    match c with
    | .text s => .cons (.text s) (normalizeList rest)
    | .tag n a kids =>
      if n == "li" then
        match findCheckboxInList kids with
        | some (cb, sibs) =>
          let label :=
            match nextSpanSibling sibs with
            | some sp => getTextStrip sp
            | none => []
          let mark := if isChecked cb then "- [x] ".toList else "- [ ] ".toList
          .cons (.tag "p" [] (.cons (.text (mark ++ label)) .nil))
            (normalizeList rest)
        | none => .cons (.tag n a (normalizeList kids)) (normalizeList rest)
      else .cons (.tag n a (normalizeList kids)) (normalizeList rest)
end

/-- Serialization of an attribute list as `str()` renders it. -/
def strAttrs : List (String × String) → List Char
  | [] => []
  | (k, v) :: rest =>
    ' ' :: (k.toList ++ '=' :: '"' :: v.toList ++ ['"']) ++ strAttrs rest

mutual
/-- `str(content_tag)`: serialize the subtree back to HTML text (simplified:
no entity escaping and no void-element special casing — the renderer that
consumes this text is abstract in this development, so only which tree is
serialized matters). -/
def strNode : Node → List Char
  | .text s => s
  | .tag n attrs kids =>
    '<' :: (n.toList ++ strAttrs attrs ++ ['>']) ++ strNodeList kids ++
      ('<' :: '/' :: n.toList ++ ['>'])
/-- Serialization of a sibling list. -/
def strNodeList : NodeList → List Char
  | .nil => []
  | .cons c rest => strNode c ++ strNodeList rest
end

/-! ### The per-file converter `convert_keep_html_to_md` (src lines 28–116) -/

/-- `soup.find('div', class_='title')` (src line 44). -/
def findTitleTag (doc : Node) : Option Node :=
  findInNode (isDivWithClass "title".toList) doc

/-- The raw title of src line 46: the trimmed text of the title div when
one exists, else the source filename without its extension (`stem`). -/
def rawTitle (doc : Node) (stem : List Char) : List Char :=
  match findTitleTag doc with
  | some tt => getTextStrip tt
  | none => stem

/-- Title extraction (src lines 44–48): the raw title, or `"Untitled Note"`
when the raw title is empty (src lines 47–48). -/
def extractTitle (doc : Node) (stem : List Char) : List Char :=
  if (rawTitle doc stem).isEmpty then untitledNote else rawTitle doc stem

/-- Content extraction (src lines 58–60): `div.note-content`, falling back
to `div.content`. -/
def findContentTag (doc : Node) : Option Node :=
  match findInNode (isDivWithClass "note-content".toList) doc with
  | some t => some t
  | none => findInNode (isDivWithClass "content".toList) doc

/-- `os.path.basename`: the part of a path after the last `/`. -/
def basenameOf (p : List Char) : List Char :=
  (p.reverse.takeWhile fun c => c != '/').reverse

/-- `os.path.splitext(...)[0]`: drop the suffix from the last `.` on,
unless every character before that dot is itself a dot (so leading-dot
names like `".bashrc"` are kept whole). -/
def stemOf (base : List Char) : List Char :=
  match base.reverse.findIdx? fun c => c == '.' with
  | none => base
  | some k =>
    let dotIndex := base.length - 1 - k
    if (base.take dotIndex).all fun c => c == '.' then base
    else base.take dotIndex

/-- The body computation of src lines 62–93, with the external `markdownify`
renderer passed in as a fallible function `mdR` (the rendering library is
external to this repository; the spec scopes it out as an external
capability).  The checkbox loop itself is pure tree rewriting and cannot
fail in this embedding, so when control reaches the `except` handler of src
line 84 the shared, in-place-mutated `content_tag` is the fully normalized
tree; the "raw content" fallback of src lines 88–89 therefore serializes
and renders that same normalized tree again, and a second failure yields
the literal marker of src line 93. -/
def convertBody (mdR : List Char → Option (List Char)) (contentTag : Node) :
    List Char :=
  match mdR (strNode (normalizeNode contentTag)) with
  | some s => s
  | none =>
    match mdR (strNode (normalizeNode contentTag)) with
    | some s => s
    | none => "[Content Conversion Failed]".toList

/-- Embedding of the per-file conversion `convert_keep_html_to_md`
(src lines 28–106) minus the file I/O: given the parsed document, the
input file path and the output directory path, the full output path and
the file text the function writes (src lines 36–104). -/
def convertNote (mdR : List Char → Option (List Char)) (doc : Node)
    (htmlFilepath : List Char) (outputDirPath : List Char) :
    List Char × List Char :=
  let base := basenameOf htmlFilepath
  let title := extractTitle doc (stemOf base)
  let mdFilename := sanitize_filename title ++ ".md".toList
  let fullMdPath := outputDirPath ++ '/' :: mdFilename
  let body :=
    match findContentTag doc with
    | none => []
    | some ct => convertBody mdR ct
  (fullMdPath, "# ".toList ++ title ++ "\n\n".toList ++ body)

end Keep2Md

namespace Keep2Md

/-! ### Concrete example documents -/

/-- A checked checkbox control: `<input type="checkbox" checked>`. -/
def cbChecked : Node := .tag "input" [("type", "checkbox"), ("checked", "")] .nil

/-- An unchecked checkbox control: `<input type="checkbox">`. -/
def cbPlain : Node := .tag "input" [("type", "checkbox")] .nil

/-- `<span>Milk</span>`. -/
def spanMilk : Node := .tag "span" [] (.cons (.text "Milk".toList) .nil)

/-- `<span>Eggs</span>`. -/
def spanEggs : Node := .tag "span" [] (.cons (.text "Eggs".toList) .nil)

/-- The Shopping List content container: a `div.content` holding a `ul`
with a checked item "Milk" and an unchecked item "Eggs". -/
def shoppingContent : Node :=
  .tag "div" [("class", "content")] (.cons
    (.tag "ul" [] (.cons
      (.tag "li" [] (.cons cbChecked (.cons spanMilk .nil)))
      (.cons (.tag "li" [] (.cons cbPlain (.cons spanEggs .nil))) .nil)))
    .nil)

/-- `<div>A</div>` — a non-span sibling element. -/
def divA : Node := .tag "div" [] (.cons (.text "A".toList) .nil)

/-- `<span>B</span>`. -/
def spanB : Node := .tag "span" [] (.cons (.text "B".toList) .nil)

/-- A content container with a single checked item "Milk". -/
def contentMilk : Node :=
  .tag "div" [("class", "content")] (.cons
    (.tag "ul" [] (.cons
      (.tag "li" [] (.cons cbChecked (.cons spanMilk .nil))) .nil))
    .nil)

/-- A renderer that fails exactly on the serialization of the normalized
`contentMilk` tree and succeeds on every other input, prefixing it with
`"OK:"`. -/
def mdFailOnNormalized : List Char → Option (List Char) := fun s =>
  if s = strNode (normalizeNode contentMilk) then none
  else some ("OK:".toList ++ s)

/-- `<div class="title">  Shopping List </div>`. -/
def titleDivShopping : Node :=
  .tag "div" [("class", "title")] (.cons (.text "  Shopping List ".toList) .nil)

/-- A document whose title container holds "  Shopping List ". -/
def docWithTitle : Node := .tag "html" [] (.cons titleDivShopping .nil)

/-- A document whose title container is present but empty. -/
def docEmptyTitle : Node :=
  .tag "html" [] (.cons (.tag "div" [("class", "title")] .nil) .nil)

/-! ### Claim theorems about the per-file converter -/

/-- **C6** (amended): normalization replaces a list item containing a
checkbox control with a paragraph node whose text is the task-list marker
(`"- [x] "` when checked, `"- [ ] "` otherwise) followed by the label,
where the label is the trimmed text of the first *span* sibling following
the checkbox control within the same list item — non-span siblings are
skipped — or the empty string if no span sibling exists; the Shopping List
example normalizes to paragraphs `- [x] Milk` and `- [ ] Eggs`. -/
theorem normalize_checkbox_li :
    (∀ (a : List (String × String)) (kids rest : NodeList)
      (cb : Node) (sibs : NodeList),
      findCheckboxInList kids = some (cb, sibs) →
      normalizeList (.cons (.tag "li" a kids) rest) =
        .cons (.tag "p" []
            (.cons (.text (checkboxMark kids ++ checkboxLabel kids)) .nil))
          (normalizeList rest)) ∧
    normalizeNode shoppingContent =
      .tag "div" [("class", "content")] (.cons
        (.tag "ul" [] (.cons
          (.tag "p" [] (.cons (.text "- [x] Milk".toList) .nil))
          (.cons (.tag "p" [] (.cons (.text "- [ ] Eggs".toList) .nil)) .nil)))
        .nil) := by
  constructor
  · intro a kids rest cb sibs h
    simp only [normalizeList, checkboxMark, checkboxLabel, h]
    exact if_pos rfl
  · rfl

/-- Witness for `normalize_checkbox_li` at a concrete checked item. -/
theorem normalize_checkbox_li_witness :
    normalizeList
        (.cons (.tag "li" [] (.cons cbChecked (.cons spanMilk .nil))) .nil) =
      .cons (.tag "p" [] (.cons (.text "- [x] Milk".toList) .nil)) .nil := by
  have h := normalize_checkbox_li.1 [] (.cons cbChecked (.cons spanMilk .nil))
    .nil cbChecked (.cons spanMilk .nil) rfl
  exact h.trans rfl

/-- **C6** counterexample: in `<li><input type="checkbox"><div>A</div>
<span>B</span></li>` the sibling element immediately following the checkbox
is `<div>A</div>`, but the code's `find_next_sibling('span')` skips it and
takes the later `<span>B</span>`, so the replacement paragraph reads
`- [ ] B`, not `- [ ] A` as the claim's label rule demands. -/
theorem normalize_label_skips_nonspan_cex :
    normalizeList
        (.cons (.tag "li" []
          (.cons cbPlain (.cons divA (.cons spanB .nil)))) .nil) =
      .cons (.tag "p" [] (.cons (.text "- [ ] B".toList) .nil)) .nil ∧
    "- [ ] B".toList ≠ "- [ ] A".toList := by
  exact ⟨rfl, by decide⟩

/-- **C4** (amended): the checkbox replacements are applied to the shared
`content_tag` in place, so when rendering fails the `except` fallback of
src lines 84–93 re-serializes the *normalized* tree, not the original
pre-normalization subtree; in particular, if the renderer fails on the
normalized serialization, the retry fails identically and the body becomes
the literal `"[Content Conversion Failed]"`, even if the original content
would have rendered fine. -/
theorem convertBody_fallback_is_normalized
    (mdR : List Char → Option (List Char)) (ct : Node)
    (h : mdR (strNode (normalizeNode ct)) = none) :
    convertBody mdR ct = "[Content Conversion Failed]".toList := by
  unfold convertBody
  rw [h]

/-- Witness for `convertBody_fallback_is_normalized` with an
always-failing renderer. -/
theorem convertBody_fallback_witness :
    convertBody (fun _ => none) contentMilk =
      "[Content Conversion Failed]".toList :=
  convertBody_fallback_is_normalized (fun _ => none) contentMilk rfl

/-- **C4** counterexample: with a renderer that fails exactly on the
normalized serialization of `contentMilk` (one checklist replacement was
applied) and succeeds on every other input, the conversion produces the
failure marker — yet rendering the original, unmodified container would
have succeeded.  The fallback therefore does not render the subtree as it
was before the checklist replacement. -/
theorem convertBody_original_not_rendered_cex :
    convertBody mdFailOnNormalized contentMilk =
      "[Content Conversion Failed]".toList ∧
    mdFailOnNormalized (strNode contentMilk) =
      some ("OK:".toList ++ strNode contentMilk) ∧
    "OK:".toList ++ strNode contentMilk ≠ "[Content Conversion Failed]".toList ∧
    strNode (normalizeNode contentMilk) ≠ strNode contentMilk := by
  exact ⟨by decide, by decide, by decide, by decide⟩

/-- **C7**: the converter writes exactly
`"# " ++ title ++ "\n\n" ++ body` to the path obtained by joining the
explicitly passed output directory with `sanitize(title) ++ ".md"` — the
source file's own directory plays no role — and when no content container
is found the body is empty, with the header still present. -/
theorem convertNote_output_format (mdR : List Char → Option (List Char))
    (doc : Node) (htmlFilepath outputDirPath : List Char) :
    (convertNote mdR doc htmlFilepath outputDirPath).1 =
      outputDirPath ++ '/' ::
        (sanitize_filename (extractTitle doc (stemOf (basenameOf htmlFilepath)))
          ++ ".md".toList) ∧
    (∃ body, (convertNote mdR doc htmlFilepath outputDirPath).2 =
      "# ".toList ++ extractTitle doc (stemOf (basenameOf htmlFilepath)) ++
        "\n\n".toList ++ body) ∧
    (findContentTag doc = none →
      (convertNote mdR doc htmlFilepath outputDirPath).2 =
        "# ".toList ++ extractTitle doc (stemOf (basenameOf htmlFilepath)) ++
          "\n\n".toList) := by
  refine ⟨rfl, ⟨_, rfl⟩, fun h => ?_⟩
  unfold convertNote
  rw [h]
  simp

/-- Witness for `convertNote_output_format` on a document with no content
container: the written text is the header alone. -/
theorem convertNote_output_format_witness :
    (convertNote (fun _ => none) (Node.tag "html" [] NodeList.nil)
        ("/a/note42.html".toList) ("/a/converted files".toList)).2 =
      "# note42\n\n".toList := by
  have h := (convertNote_output_format (fun _ => none)
    (Node.tag "html" [] NodeList.nil) ("/a/note42.html".toList)
    ("/a/converted files".toList)).2.2 rfl
  exact h.trans (by decide)

/-- **C8** (amended): the extracted title is never empty; it is the trimmed
text of the title container when the container is present and yields text;
when the container is present but yields no text the title is
`"Untitled Note"` directly (the filename stem is *not* consulted); the stem
is used only when no title container exists, with `"Untitled Note"` as the
fallback for an empty stem. -/
theorem extractTitle_spec :
    (∀ (doc : Node) (stem : List Char), extractTitle doc stem ≠ []) ∧
    (∀ (doc : Node) (stem : List Char) (tt : Node),
      findTitleTag doc = some tt → getTextStrip tt ≠ [] →
      extractTitle doc stem = getTextStrip tt) ∧
    (∀ (doc : Node) (stem : List Char) (tt : Node),
      findTitleTag doc = some tt → getTextStrip tt = [] →
      extractTitle doc stem = untitledNote) ∧
    (∀ (doc : Node) (stem : List Char), findTitleTag doc = none →
      extractTitle doc stem = (if stem.isEmpty then untitledNote else stem)) := by
  refine ⟨fun doc stem => ?_, fun doc stem tt h ht => ?_,
    fun doc stem tt h ht => ?_, fun doc stem h => ?_⟩
  · unfold extractTitle
    split
    · decide
    · next hne =>
      intro hnil
      rw [hnil] at hne
      exact hne rfl
  · unfold extractTitle rawTitle
    rw [h]
    rw [if_neg ?_]
    intro he
    rw [List.isEmpty_iff] at he
    exact ht he
  · unfold extractTitle rawTitle
    rw [h]
    simp [ht]
  · unfold extractTitle rawTitle
    rw [h]

/-- Witness for `extractTitle_spec` at a document whose title container
holds (untrimmed) "  Shopping List ". -/
theorem extractTitle_spec_witness :
    extractTitle docWithTitle ("x".toList) = "Shopping List".toList := by
  have h := extractTitle_spec.2.1 docWithTitle ("x".toList) titleDivShopping
    rfl (by decide)
  exact h.trans (by decide)

/-- **C8** counterexample: for a document whose title container is present
but empty, with source filename stem `note42`, the code's title is
`"Untitled Note"` — it does not fall back to the filename stem as the
claimed fallback chain (container text, then stem, then "Untitled Note")
states. -/
theorem extractTitle_empty_container_cex :
    extractTitle docEmptyTitle ("note42".toList) = "Untitled Note".toList ∧
    extractTitle docEmptyTitle ("note42".toList) ≠ "note42".toList := by
  exact ⟨by decide, by decide⟩

end Keep2Md

namespace Keep2Md

/-! ### The batch loop of `main` (src lines 119–172) -/

/-- What happens while converting one file, for the purpose of the batch
loop's error accounting. -/
inductive FileFate where
  | ok
  | notFound
  | failed
  deriving DecidableEq

/-- Whether `convert_keep_html_to_md` lets an exception escape to its
caller.  Its whole body runs inside `try` with a handler for
`FileNotFoundError` (src lines 108–109) and one for every other
`Exception` (src lines 110–116); both handlers only print and fall
through, so the function returns normally whatever happens inside. -/
def convertRaises : FileFate → Bool
  | .ok => false
  | .notFound => false
  | .failed => false

theorem convertRaises_false (f : FileFate) : convertRaises f = false := by
  cases f <;> rfl

/-- Python's `str.lower()` restricted to ASCII letters (the suffix test
only concerns the ASCII string `".html"`; exotic Unicode case mappings
are not modelled). -/
def asciiLower (c : Char) : Char :=
  if 'A' ≤ c && c ≤ 'Z' then Char.ofNat (c.toNat + 32) else c

/-- The selection test of src line 152:
`filename.lower().endswith(".html")`. -/
def isHtmlName (name : List Char) : Bool :=
  ".html".toList.isSuffixOf (name.map asciiLower)

/-- The `for` loop of src lines 150–160, carrying the two counters
`file_count` and `conversion_errors` and — for specification purposes —
the list of files handed to the converter.  Entries not ending in
`.html` are skipped; a matching entry increments `file_count` and invokes
`convert_keep_html_to_md`; `conversion_errors` increments only when that
call raises (src lines 156–160). -/
def batchLoop (fileCount convErrors : Nat) (processed : List (List Char)) :
    List (List Char × FileFate) → Nat × Nat × List (List Char)
  | [] => (fileCount, convErrors, processed)
  | (name, fate) :: rest =>
    if isHtmlName name then
      batchLoop (fileCount + 1)
        (if convertRaises fate then convErrors + 1 else convErrors)
        (processed ++ [name]) rest
    else batchLoop fileCount convErrors processed rest

/-- The batch run of `main` over the enumerated directory entries: the
final `file_count`, `conversion_errors` and list of converted files. -/
def runBatch (entries : List (List Char × FileFate)) :
    Nat × Nat × List (List Char) :=
  batchLoop 0 0 [] entries

theorem batchLoop_eq (entries : List (List Char × FileFate)) :
    ∀ fc ce ps, batchLoop fc ce ps entries =
      (fc + (entries.filter fun e => isHtmlName e.1).length, ce,
       ps ++ (entries.filter fun e => isHtmlName e.1).map Prod.fst) := by
  induction entries with
  | nil => intro fc ce ps; simp [batchLoop]
  | cons e rest ih =>
    intro fc ce ps
    cases e with
    | mk name fate =>
      simp only [batchLoop, convertRaises_false, Bool.false_eq_true, if_false]
      by_cases h : isHtmlName name = true
      · rw [if_pos h, ih]
        simp only [List.filter_cons, h, if_true, List.length_cons,
          List.map_cons, List.append_assoc, List.singleton_append,
          Prod.mk.injEq]
        rw [Nat.add_assoc, Nat.add_comm 1]
        exact ⟨rfl, trivial⟩
      · rw [if_neg h, ih]
        have h' : isHtmlName name = false := Bool.eq_false_iff.mpr h
        simp [List.filter_cons, h']

/-- **C9**: the batch attempts conversion of exactly the entries whose
names end case-insensitively in `.html`, and the reported attempted count
equals their number. -/
theorem runBatch_attempted (entries : List (List Char × FileFate)) :
    (runBatch entries).1 =
      (entries.filter fun e => isHtmlName e.1).length ∧
    (runBatch entries).2.2 =
      (entries.filter fun e => isHtmlName e.1).map Prod.fst := by
  unfold runBatch
  rw [batchLoop_eq]
  simp

/-- **C5** (code-bug evidence): `convert_keep_html_to_md` catches
`FileNotFoundError` and every other `Exception` internally and only
prints, so the `except` branch of src lines 158–159 is unreachable and
`conversion_errors` stays 0 on every run: a batch whose single `.html`
file disappears before opening still reports attempted = 1 with 0 errors
(and hence 1 "successful" conversion), contradicting the claimed
accounting. -/
theorem runBatch_errors_always_zero :
    runBatch [("a.html".toList, FileFate.notFound)] =
      (1, 0, ["a.html".toList]) ∧
    ∀ entries, (runBatch entries).2.1 = 0 := by
  refine ⟨by decide, fun entries => ?_⟩
  unfold runBatch
  rw [batchLoop_eq]

end Keep2Md
